import Mathlib

/-!
cppThreadPool: the worker pool of `threadPool.h` / `threadPool.cpp`.

The class `ThreadPool` (and its template twin `tThreadPool<T>`, whose member
functions are textually the same) is embedded as a transition system.

* The data members `bAlive`, `_jobsQueueMtx`, `cvJobs`, `qJobs`, `vThreads`
  are the fields of the structure `ThreadPool`.  The mutex is its owner (a
  worker index) or `none`; the condition variable is the list of the threads
  blocked on it; a thread of `vThreads` is its control point inside
  `processJobs` together with its local variable `job`.
* Every statement of `processJobs` that touches shared state is one step of
  `processJobs i`, taken by worker `i`.
* `addJob` runs wholly inside its `lock_guard`, so it is one step, enabled when
  the mutex is free.  `kill` takes no lock: its two statements are two steps.
* Three history variables (`submitted`, `popped`, `executed`) record what
  happened; no step reads them.
* A schedule is a list of actions; the threads are interleaved one statement
  at a time, and every read or write of `bAlive` is one indivisible step.

`unsigned int` is taken to be 32 bits wide.  The constructor is one step: the
threads it spawns start at line 63 once it has returned.
-/

namespace CppThreadPool

/-- Control points of one worker thread inside `processJobs`
(line numbers of `threadPool.cpp`). -/
inductive PC where
  /-- line 63: about to evaluate `while(this->bAlive)` -/
  | loop
  /-- line 68: about to construct `unique_lock<mutex> lck(_jobsQueueMtx)` -/
  | lock
  /-- line 69: holding the lock, about to evaluate the wait predicate -/
  | waitPred
  /-- line 69: the predicate was false, about to release the lock and block -/
  | waitBlock
  /-- line 69: blocked on `cvJobs`, or notified and re-acquiring the lock -/
  | blocked
  /-- line 71: about to evaluate `if(!bAlive) return;` -/
  | check
  /-- line 73: about to execute `job = move(qJobs.front())` -/
  | front
  /-- line 75: about to execute `qJobs.pop()` -/
  | pop
  /-- line 76: about to leave the block, releasing the lock -/
  | unlock
  /-- line 78: `job()` is executing -/
  | run
  /-- the thread function has returned -/
  | exited
  /-- `front()`/`pop()` on an empty queue, or a call of an empty `function` -/
  | fault
  deriving DecidableEq, Repr

/-- The control points at which the worker owns `_jobsQueueMtx`. -/
def PC.holdsLock : PC → Bool
  | .waitPred | .waitBlock | .check | .front | .pop | .unlock => true
  | _ => false

/-- One element of `vThreads`: where the thread is, and its local `job`. -/
structure Worker (J : Type) where
  pc : PC
  job : Option J
  deriving DecidableEq, Repr

/-- A thread as `emplace_back(&ThreadPool::processJobs, this)` creates it. -/
def Worker.spawn {J : Type} : Worker J := { pc := .loop, job := none }

/-- The object state of `class ThreadPool`, with three history variables. -/
structure ThreadPool (J : Type) where
  bAlive : Bool
  _jobsQueueMtx : Option Nat
  cvJobs : List Nat
  qJobs : List J
  vThreads : List (Worker J)
  /-- history: the jobs handed to `addJob`, in order -/
  submitted : List J
  /-- history: the jobs removed by `qJobs.pop()`, with the popping worker -/
  popped : List (Nat × J)
  /-- history: the jobs whose call `job()` has returned, with the worker -/
  executed : List (Nat × J)
  deriving DecidableEq, Repr

variable {J : Type}

/-- The object after the member initialisers `: bAlive(true)`; every other
member is default-constructed. -/
def ThreadPool.members : ThreadPool J :=
  { bAlive := true, _jobsQueueMtx := none, cvJobs := [], qJobs := [], vThreads := [],
    submitted := [], popped := [], executed := [] }

/-- The loop of `initThreads`: `for(unsigned int i = 0; i <= iNumThreads; i++)`.
The counter wraps at `2 ^ 32`; `none` when the fuel runs out. -/
def initThreadsLoop (iNumThreads : Nat) : Nat → Nat → List (Worker J) → Option (List (Worker J))
  | 0, _, _ => none
  | fuel + 1, i, v =>
    if i ≤ iNumThreads then
      initThreadsLoop iNumThreads fuel ((i + 1) % 2 ^ 32) (v ++ [Worker.spawn])
    else some v

/-- `ThreadPool::initThreads` (lines 35-41). -/
def initThreads (fuel iNumThreads : Nat) (s : ThreadPool J) : Option (ThreadPool J) :=
  (initThreadsLoop iNumThreads fuel 0 s.vThreads).map fun v => { s with vThreads := v }

/-- `ThreadPool::ThreadPool(const unsigned int& iNumThreads)` (lines 17-20). -/
def ThreadPool.create (fuel iNumThreads : Nat) : Option (ThreadPool J) :=
  initThreads fuel iNumThreads ThreadPool.members

/-- `ThreadPool::ThreadPool()` (lines 8-11); `hardwareConcurrency` stands for
the value of `thread::hardware_concurrency()`. -/
def ThreadPool.createDefault (fuel hardwareConcurrency : Nat) : Option (ThreadPool J) :=
  initThreads fuel hardwareConcurrency ThreadPool.members

/-- Replace worker `i` of `vThreads`. -/
def ThreadPool.setThread (s : ThreadPool J) (i : Nat) (w : Worker J) : ThreadPool J :=
  { s with vThreads := s.vThreads.set i w }

/-- `cvJobs.notify_one()`: one blocked thread, if there is any, leaves the wait
set; which one is the scheduler's choice `wake`. -/
def notifyOne (wake : Nat) (s : ThreadPool J) : ThreadPool J :=
  { s with cvJobs := s.cvJobs.eraseIdx (wake % s.cvJobs.length) }

/-- `cvJobs.notify_all()`: every blocked thread leaves the wait set. -/
def notifyAll (s : ThreadPool J) : ThreadPool J :=
  { s with cvJobs := [] }

/-- `ThreadPool::addJob` (lines 49-54), the body under the `lock_guard`. -/
def addJob (tNewJob : J) (wake : Nat) (s : ThreadPool J) : ThreadPool J :=
  notifyOne wake { s with qJobs := s.qJobs ++ [tNewJob], submitted := s.submitted ++ [tNewJob] }

/-- Line 88 of `kill`: `this->bAlive = false;`. -/
def killFlag (s : ThreadPool J) : ThreadPool J :=
  { s with bAlive := false }

/-- `ThreadPool::kill` (lines 86-90). -/
def kill (s : ThreadPool J) : ThreadPool J :=
  notifyAll (killFlag s)

/-- One step of worker `i` in `ThreadPool::processJobs` (lines 61-80);
`none` when the worker cannot move (blocked, or its function has ended). -/
def processJobs (i : Nat) (s : ThreadPool J) : Option (ThreadPool J) :=
  match s.vThreads[i]? with
  | none => none
  | some w =>
    match w.pc with
    | .loop =>
      if s.bAlive then some (s.setThread i { w with pc := .lock })
      else some (s.setThread i { w with pc := .exited })
    | .lock =>
      if s._jobsQueueMtx = none then
        some ({ s with _jobsQueueMtx := some i }.setThread i { w with pc := .waitPred })
      else none
    | .waitPred =>
      if !s.bAlive || !s.qJobs.isEmpty then some (s.setThread i { w with pc := .check })
      else some (s.setThread i { w with pc := .waitBlock })
    | .waitBlock =>
      some ({ s with _jobsQueueMtx := none, cvJobs := s.cvJobs ++ [i] }.setThread i
        { w with pc := .blocked })
    | .blocked =>
      if i ∈ s.cvJobs then none
      else if s._jobsQueueMtx = none then
        some ({ s with _jobsQueueMtx := some i }.setThread i { w with pc := .waitPred })
      else none
    | .check =>
      if !s.bAlive then
        some ({ s with _jobsQueueMtx := none }.setThread i { w with pc := .exited })
      else some (s.setThread i { w with pc := .front })
    | .front =>
      match s.qJobs.head? with
      | none => some (s.setThread i { w with pc := .fault })
      | some j => some (s.setThread i { pc := .pop, job := some j })
    | .pop =>
      match s.qJobs with
      | [] => some (s.setThread i { w with pc := .fault })
      | j :: q =>
        some ({ s with qJobs := q, popped := s.popped ++ [(i, j)] }.setThread i
          { w with pc := .unlock })
    | .unlock =>
      some ({ s with _jobsQueueMtx := none }.setThread i { w with pc := .run })
    | .run =>
      match w.job with
      | none => some (s.setThread i { w with pc := .fault })
      | some j =>
        some ({ s with executed := s.executed ++ [(i, j)] }.setThread i
          { pc := .loop, job := none })
    | .exited => none
    | .fault => none

/-- What can happen next to a pool. -/
inductive Action (J : Type) where
  /-- a caller runs `addJob(tNewJob)`; `wake` resolves `notify_one` -/
  | addJob (tNewJob : J) (wake : Nat)
  /-- a caller executes line 88 of `kill` -/
  | killFlag
  /-- a caller executes line 89 of `kill` -/
  | killNotify
  /-- worker `i` takes its next step in `processJobs` -/
  | worker (i : Nat)
  /-- thread `i` wakes up from `cvJobs.wait` without a notification -/
  | spurious (i : Nat)
  deriving DecidableEq, Repr

/-- One transition; `none` when the action is not enabled in `s`. -/
def step (s : ThreadPool J) : Action J → Option (ThreadPool J)
  | .addJob tNewJob wake => if s._jobsQueueMtx = none then some (addJob tNewJob wake s) else none
  | .killFlag => some (killFlag s)
  | .killNotify => some (notifyAll s)
  | .worker i => processJobs i s
  | .spurious i => some { s with cvJobs := s.cvJobs.erase i }

/-- Run a schedule from `s`; `none` when one of its actions is not enabled. -/
def run : List (Action J) → ThreadPool J → Option (ThreadPool J)
  | [], s => some s
  | a :: as, s => (step s a).bind (run as)

/-- The jobs a schedule hands to `addJob`, in order. -/
def jobsOf : List (Action J) → List J
  | [] => []
  | .addJob j _ :: as => j :: jobsOf as
  | _ :: as => jobsOf as

/-- The join loop of `ThreadPool::~ThreadPool` (line 28): it returns when every
thread of `vThreads` has returned, and blocks (`none`) otherwise. -/
def joinAll (s : ThreadPool J) : Option (ThreadPool J) :=
  if s.vThreads.all (fun w => decide (w.pc = .exited)) then some s else none

/-- The value of a shared counter that every job increments by one. -/
def counter (s : ThreadPool J) : Nat :=
  s.executed.foldl (fun c _ => c + 1) 0

/-- The job that a worker (number `i`) owns between `qJobs.pop()` and the end
of `job()`, as a list of at most one entry. -/
def Worker.owned (i : Nat) (w : Worker J) : List (Nat × J) :=
  if w.pc = .unlock ∨ w.pc = .run then
    match w.job with
    | none => []
    | some j => [(i, j)]
  else []

/-- The job that worker `i` of `v` owns, if there is such a worker. -/
def pending (v : List (Worker J)) (i : Nat) : List (Nat × J) :=
  match v[i]? with
  | none => []
  | some w => w.owned i

/-- The jobs that are executing: the workers inside `job()`. -/
def running (s : ThreadPool J) : List J :=
  (s.vThreads.filter (fun w => decide (w.pc = .run))).filterMap (fun w => w.job)

/-- What holds of every worker in every reachable state: it is at a lock-holding
control point exactly when it owns the mutex; past the wait predicate the
flag is false or the queue is non-empty; at `front()` and `pop()` the queue is
non-empty; from `pop()` on, its local `job` is set; it has not faulted. -/
def Core (s : ThreadPool J) : Prop :=
  ∀ k w, s.vThreads[k]? = some w →
    (w.pc.holdsLock = true ↔ s._jobsQueueMtx = some k) ∧
    (w.pc = .check → s.bAlive = false ∨ s.qJobs ≠ []) ∧
    (w.pc = .front → s.qJobs ≠ []) ∧
    (w.pc = .pop → s.qJobs ≠ [] ∧ w.job = s.qJobs.head?) ∧
    (w.pc = .unlock ∨ w.pc = .run → w.job ≠ none) ∧
    w.pc ≠ .fault

/-- The inductive invariant of the pool. -/
structure Inv (s : ThreadPool J) : Prop where
  core : Core s
  /-- the popped jobs followed by the queued jobs are the submitted jobs -/
  fifo : s.popped.map Prod.snd ++ s.qJobs = s.submitted
  /-- what worker `i` popped is what it executed, then what it still owns -/
  logs : ∀ i, s.popped.filter (fun e => e.1 == i) =
    s.executed.filter (fun e => e.1 == i) ++ pending s.vThreads i
  /-- only threads of `vThreads` pop -/
  owner : ∀ e ∈ s.popped, e.1 < s.vThreads.length

/-- Whether the owner `m` of the mutex stands between the check of line 71 and
`qJobs.pop()` of line 75. -/
def pastCheck (m : Option Nat) (v : List (Worker J)) : Bool :=
  match m with
  | none => false
  | some i =>
    match v[i]? with
    | none => false
    | some w => decide (w.pc = .front ∨ w.pc = .pop)

/-- The number of pops so far plus the one the mutex owner is committed to. -/
def popBudget (s : ThreadPool J) : Nat :=
  s.popped.length + (if pastCheck s._jobsQueueMtx s.vThreads then 1 else 0)


/-! ## Schedules and states used as concrete instances -/

/-- Worker `i` takes `n` steps in a row. -/
def steps (i n : Nat) : List (Action Nat) := List.replicate n (Action.worker i)

/-- A fresh pool with the given threads, as the constructor leaves it. -/
def poolOf (v : List (Worker Nat)) : ThreadPool Nat :=
  { bAlive := true, _jobsQueueMtx := none, cvJobs := [], qJobs := [], vThreads := v,
    submitted := [], popped := [], executed := [] }

/-- `ThreadPool(0)`: jobs 10 and 20 are submitted, the worker runs job 10 to
its end, job 30 is submitted, the worker pops job 20. -/
def fifoSchedule : List (Action Nat) :=
  [Action.addJob 10 0, Action.addJob 20 0] ++ steps 0 8 ++ [Action.addJob 30 0] ++ steps 0 6

/-- The state `fifoSchedule` ends in. -/
def fifoEnd : ThreadPool Nat :=
  { bAlive := true, _jobsQueueMtx := some 0, cvJobs := [], qJobs := [30],
    vThreads := [{ pc := .unlock, job := some 20 }],
    submitted := [10, 20, 30], popped := [(0, 10), (0, 20)], executed := [(0, 10)] }

/-- `ThreadPool(1)`: jobs 10 and 20 are submitted; worker 0 pops job 10, worker 1
pops job 20 and finishes it first, then job 10 ends and job 30 is submitted. -/
def twoWorkerSchedule : List (Action Nat) :=
  [Action.addJob 10 0, Action.addJob 20 0] ++ steps 0 6 ++ steps 1 1 ++ steps 0 1 ++
    steps 1 7 ++ steps 0 1 ++ [Action.addJob 30 1]

/-- The state `twoWorkerSchedule` ends in. -/
def twoWorkerEnd : ThreadPool Nat :=
  { bAlive := true, _jobsQueueMtx := none, cvJobs := [], qJobs := [30],
    vThreads := [{ pc := .loop, job := none }, { pc := .loop, job := none }],
    submitted := [10, 20, 30], popped := [(0, 10), (1, 20)], executed := [(1, 20), (0, 10)] }

/-- `ThreadPool(1)`: two jobs are submitted and run to their end, then the
destructor runs `kill()` and both threads return. -/
def drainSchedule : List (Action Nat) :=
  [Action.addJob 10 0, Action.addJob 20 0] ++ steps 0 8 ++ steps 1 8 ++
    [Action.killFlag, Action.killNotify] ++ steps 0 1 ++ steps 1 1

/-- The state `drainSchedule` ends in. -/
def drainEnd : ThreadPool Nat :=
  { bAlive := false, _jobsQueueMtx := none, cvJobs := [], qJobs := [],
    vThreads := [{ pc := .exited, job := none }, { pc := .exited, job := none }],
    submitted := [10, 20], popped := [(0, 10), (1, 20)], executed := [(0, 10), (1, 20)] }

/-- `ThreadPool(1)`: worker 0 blocks on `cvJobs`, job 10 is submitted and wakes
it, and it goes on to line 73. -/
def wakeSchedule : List (Action Nat) :=
  steps 0 4 ++ [Action.addJob 10 0] ++ steps 0 3

/-- The state `wakeSchedule` ends in. -/
def wakeEnd : ThreadPool Nat :=
  { bAlive := true, _jobsQueueMtx := some 0, cvJobs := [], qJobs := [10],
    vThreads := [{ pc := .front, job := none }, { pc := .loop, job := none }],
    submitted := [10], popped := [], executed := [] }

/-- `ThreadPool(0)`; the worker passes line 71 with job 7 queued, then a
caller runs `kill()`. -/
def killBeforePopSchedule : List (Action Nat) :=
  [Action.addJob 7 0] ++ steps 0 4 ++ [Action.killFlag, Action.killNotify]

/-- After `killBeforePopSchedule` the worker goes on to line 78. -/
def lateKillSchedule : List (Action Nat) :=
  killBeforePopSchedule ++ steps 0 3

/-- `ThreadPool(0)`; the worker finds the wait predicate false, a caller runs
`kill()`, then the worker blocks on `cvJobs`. -/
def lostWakeupSchedule : List (Action Nat) :=
  steps 0 3 ++ [Action.killFlag, Action.killNotify] ++ steps 0 1

/-- `ThreadPool(2)`; three jobs are submitted and each thread of `vThreads`
takes one up to `job()`; no job returns. -/
def threeBlockedSchedule : List (Action Nat) :=
  [Action.addJob 0 0, Action.addJob 1 0, Action.addJob 2 0] ++ steps 0 7 ++ steps 1 7 ++ steps 2 7

/-- `ThreadPool(4)`; 100 jobs are submitted, the destructor runs `kill()`, and
then each of the threads evaluates line 63. -/
def earlyDisposalSchedule : List (Action Nat) :=
  (List.range 100).map (fun k => Action.addJob k 0) ++ [Action.killFlag, Action.killNotify] ++
    steps 0 1 ++ steps 1 1 ++ steps 2 1 ++ steps 3 1 ++ steps 4 1

/-- `ThreadPool(0)` with jobs 7 and 8 queued, the worker past the check of
line 71, and `kill()` done. -/
def lateKillStart : ThreadPool Nat :=
  { bAlive := false, _jobsQueueMtx := some 0, cvJobs := [], qJobs := [7, 8],
    vThreads := [{ pc := .front, job := none }],
    submitted := [7, 8], popped := [], executed := [] }

/-- The state `lateKillRest` leads to from `lateKillStart`. -/
def lateKillEnd : ThreadPool Nat :=
  { bAlive := false, _jobsQueueMtx := none, cvJobs := [], qJobs := [8, 9],
    vThreads := [{ pc := .exited, job := none }],
    submitted := [7, 8, 9], popped := [(0, 7)], executed := [(0, 7)] }

/-- The schedule that leads to `lateKillStart`. -/
def lateKillLead : List (Action Nat) :=
  [Action.addJob 7 0, Action.addJob 8 0] ++ steps 0 4 ++ [Action.killFlag, Action.killNotify]

/-- From `lateKillStart`: the worker pops and runs job 7, job 9 is submitted,
the worker returns. -/
def lateKillRest : List (Action Nat) :=
  steps 0 3 ++ [Action.addJob 9 0] ++ steps 0 2

/-! ## Lemmas -/

/-- Reading a list after one of its entries was replaced. -/
theorem getElem?_set_of {α : Type} {l : List α} {i : Nat} {w w' : α} (h : l[i]? = some w) (k : Nat) :
    (l.set i w')[k]? = if k = i then some w' else l[k]? := by
  have hi : i < l.length := by
    rcases List.getElem?_eq_some.1 h with ⟨hi, _⟩
    exact hi
  by_cases hk : k = i
  · subst hk; simp [hi]
  · have : i ≠ k := fun h => hk h.symm
    simp [hk, List.getElem?_set_ne this]

/-- A worker step keeps the popped jobs followed by the queue equal to the
submitted jobs. -/
theorem processJobs_fifo (i : Nat) (s s' : ThreadPool J)
    (h : s.popped.map Prod.snd ++ s.qJobs = s.submitted)
    (hs : processJobs i s = some s') :
    s'.popped.map Prod.snd ++ s'.qJobs = s'.submitted := by
  unfold processJobs at hs
  cases hw : s.vThreads[i]? with
  | none => simp [hw] at hs
  | some w =>
    simp only [hw] at hs
    cases hpc : w.pc <;> simp only [hpc] at hs
    all_goals (try split at hs)
    all_goals (try split at hs)
    all_goals (try (simp at hs))
    all_goals (try subst hs)
    all_goals simp_all [ThreadPool.setThread]

/-- A worker step submits nothing, creates no thread and never sets the flag. -/
theorem processJobs_frame (i : Nat) (s s' : ThreadPool J)
    (hs : processJobs i s = some s') :
    s'.submitted = s.submitted ∧ s'.vThreads.length = s.vThreads.length ∧
    (s.bAlive = false → s'.bAlive = false) := by
  unfold processJobs at hs
  cases hw : s.vThreads[i]? with
  | none => simp [hw] at hs
  | some w =>
    simp only [hw] at hs
    cases hpc : w.pc <;> simp only [hpc] at hs
    all_goals (try split at hs)
    all_goals (try split at hs)
    all_goals (try (simp at hs))
    all_goals (try subst hs)
    all_goals simp_all [ThreadPool.setThread]

/-- A worker step pops at most one job, under its own number. -/
theorem processJobs_popped (i : Nat) (s s' : ThreadPool J)
    (hs : processJobs i s = some s') :
    i < s.vThreads.length ∧ (s'.popped = s.popped ∨ ∃ j, s'.popped = s.popped ++ [(i, j)]) := by
  unfold processJobs at hs
  cases hw : s.vThreads[i]? with
  | none => simp [hw] at hs
  | some w =>
    have hi : i < s.vThreads.length := by
      rcases List.getElem?_eq_some.1 hw with ⟨hi, _⟩
      exact hi
    refine ⟨hi, ?_⟩
    simp only [hw] at hs
    cases hpc : w.pc <;> simp only [hpc] at hs
    all_goals (try split at hs)
    all_goals (try split at hs)
    all_goals (try (simp at hs))
    all_goals (try subst hs)
    all_goals simp_all [ThreadPool.setThread]

/-- Only threads of `vThreads` appear in `popped`. -/
theorem processJobs_owner (i : Nat) (s s' : ThreadPool J)
    (h : ∀ e ∈ s.popped, e.1 < s.vThreads.length)
    (hs : processJobs i s = some s') :
    ∀ e ∈ s'.popped, e.1 < s'.vThreads.length := by
  obtain ⟨hi, hp⟩ := processJobs_popped i s s' hs
  obtain ⟨-, hl, -⟩ := processJobs_frame i s s' hs
  intro e he
  rw [hl]
  rcases hp with hp | ⟨j, hp⟩
  · exact h e (hp ▸ he)
  · rw [hp, List.mem_append] at he
    rcases he with he | he
    · exact h e he
    · simp at he; subst he; exact hi

/-- The job owned by worker `k` after worker `i` was replaced. -/
theorem pending_set {v : List (Worker J)} {i : Nat} {w w' : Worker J}
    (hw : v[i]? = some w) (k : Nat) :
    pending (v.set i w') k = if k = i then w'.owned i else pending v k := by
  unfold pending
  simp only [getElem?_set_of hw]
  by_cases hk : k = i
  · subst hk; simp
  · simp [hk]

set_option maxHeartbeats 4000000 in
/-- A worker step keeps each worker's pops equal to its executions followed by
the job it owns. -/
theorem processJobs_logs (i : Nat) (s s' : ThreadPool J) (hc : Core s)
    (h : ∀ k, s.popped.filter (fun e => e.1 == k) =
      s.executed.filter (fun e => e.1 == k) ++ pending s.vThreads k)
    (hs : processJobs i s = some s') :
    ∀ k, s'.popped.filter (fun e => e.1 == k) =
      s'.executed.filter (fun e => e.1 == k) ++ pending s'.vThreads k := by
  unfold processJobs at hs
  cases hw : s.vThreads[i]? with
  | none => simp [hw] at hs
  | some w =>
    have hwi := hc i w hw
    simp only [hw] at hs
    cases hpc : w.pc <;> simp only [hpc] at hs <;> simp only [hpc, PC.holdsLock] at hwi
    all_goals (try split at hs)
    all_goals (try split at hs)
    all_goals (try (simp at hs))
    all_goals (try subst hs)
    all_goals
      intro k
      have hk := h k
      simp only [ThreadPool.setThread, pending_set hw]
      by_cases hki : k = i
      · subst hki
        simp [pending, hw, hpc, Worker.owned] at hk
        simp_all [List.filter_append, Worker.owned]
      · have hne : ¬ i = k := fun e => hki e.symm
        simp_all [List.filter_append]

set_option maxHeartbeats 4000000 in
/-- A worker step preserves `Core`: the case analysis over the control point of
the stepping worker and of every other worker. -/
theorem processJobs_core (i : Nat) (s s' : ThreadPool J) (h : Core s)
    (hs : processJobs i s = some s') : Core s' := by
  unfold processJobs at hs
  cases hw : s.vThreads[i]? with
  | none => simp [hw] at hs
  | some w =>
    have hwi := h i w hw
    simp only [hw] at hs
    cases hpc : w.pc <;> simp only [hpc] at hs <;> simp only [hpc, PC.holdsLock] at hwi
    all_goals (try split at hs)
    all_goals (try split at hs)
    all_goals (try (simp at hs))
    all_goals (try subst hs)
    all_goals
      intro k wk hk
      simp only [ThreadPool.setThread, getElem?_set_of hw] at hk
      by_cases hki : k = i
      · simp only [hki, if_true, Option.some.injEq] at hk
        subst hk; subst hki
        simp_all [PC.holdsLock, ThreadPool.setThread]
      · simp only [hki, if_false] at hk
        have hwk := h k wk hk
        have hne : ¬ i = k := fun e => hki e.symm
        simp only [ThreadPool.setThread]
        first
          | exact hwk
          | (cases hpk : wk.pc <;> simp_all [PC.holdsLock])

/-- A worker step preserves the invariant. -/
theorem processJobs_inv (i : Nat) (s s' : ThreadPool J) (h : Inv s)
    (hs : processJobs i s = some s') : Inv s' :=
  ⟨processJobs_core i s s' h.core hs, processJobs_fifo i s s' h.fifo hs,
    processJobs_logs i s s' h.core h.logs hs, processJobs_owner i s s' h.owner hs⟩

/-- `addJob`, run while the mutex is free, preserves the invariant. -/
theorem addJob_inv (j : J) (c : Nat) (s : ThreadPool J) (h : Inv s)
    (hm : s._jobsQueueMtx = none) : Inv (addJob j c s) := by
  refine ⟨?_, ?_, ?_, ?_⟩
  · intro k w hk
    have := h.core k w hk
    simp only [addJob, notifyOne] at hk ⊢
    cases hpk : w.pc <;> simp_all [PC.holdsLock]
  · simp [addJob, notifyOne, ← h.fifo]
  · exact h.logs
  · exact h.owner

/-- Line 88 of `kill` preserves the invariant. -/
theorem killFlag_inv (s : ThreadPool J) (h : Inv s) : Inv (killFlag s) := by
  refine ⟨?_, h.fifo, h.logs, h.owner⟩
  intro k w hk
  have := h.core k w hk
  simp only [killFlag] at hk ⊢
  simp_all

/-- The invariant does not depend on the wait set. -/
theorem cvJobs_inv (s : ThreadPool J) (l : List Nat) (h : Inv s) :
    Inv { s with cvJobs := l } :=
  ⟨h.core, h.fifo, h.logs, h.owner⟩

/-- Every transition preserves the invariant. -/
theorem step_inv (a : Action J) (s s' : ThreadPool J) (h : Inv s)
    (hs : step s a = some s') : Inv s' := by
  cases a with
  | addJob j c =>
    simp only [step] at hs
    split at hs
    · simp at hs; subst hs; exact addJob_inv j c s h (by assumption)
    · simp at hs
  | killFlag => simp only [step] at hs; simp at hs; subst hs; exact killFlag_inv s h
  | killNotify => simp only [step] at hs; simp at hs; subst hs; exact cvJobs_inv s [] h
  | worker i => exact processJobs_inv i s s' h hs
  | spurious i => simp only [step] at hs; simp at hs; subst hs; exact cvJobs_inv s _ h

/-- Every schedule preserves the invariant. -/
theorem run_inv (acts : List (Action J)) : ∀ (s s' : ThreadPool J), Inv s →
    run acts s = some s' → Inv s' := by
  induction acts with
  | nil => intro s s' h hs; simp [run] at hs; subst hs; exact h
  | cons a as ih =>
    intro s s' h hs
    simp only [run] at hs
    cases hst : step s a with
    | none => simp [hst] at hs
    | some t =>
      simp [hst] at hs
      exact ih t s' (step_inv a s t h hst) hs

/-- The loop of `initThreads` only appends freshly spawned threads. -/
theorem initThreadsLoop_spawn (n : Nat) : ∀ (fuel i : Nat) (v v' : List (Worker J)),
    initThreadsLoop n fuel i v = some v' → ∃ k, v' = v ++ List.replicate k Worker.spawn := by
  intro fuel
  induction fuel with
  | zero => intro i v v' h; simp [initThreadsLoop] at h
  | succ f ih =>
    intro i v v' h
    simp only [initThreadsLoop] at h
    split at h
    · obtain ⟨k, hk⟩ := ih _ _ _ h
      exact ⟨k + 1, by rw [hk, List.replicate_succ]; simp⟩
    · simp at h; exact ⟨0, by simp [h]⟩

/-- What the constructor returns is the initialised object with some number of
fresh threads. -/
theorem create_eq (fuel n : Nat) (s0 : ThreadPool J) (h : ThreadPool.create fuel n = some s0) :
    ∃ k, s0 = { (ThreadPool.members : ThreadPool J) with vThreads := List.replicate k Worker.spawn } := by
  simp only [ThreadPool.create, initThreads, Option.map_eq_some'] at h
  obtain ⟨v, hv, rfl⟩ := h
  obtain ⟨k, hk⟩ := initThreadsLoop_spawn n fuel 0 _ v hv
  exact ⟨k, by simp [hk, ThreadPool.members]⟩

/-- The invariant holds of the constructed pool. -/
theorem create_inv (fuel n : Nat) (s0 : ThreadPool J) (h : ThreadPool.create fuel n = some s0) :
    Inv s0 := by
  obtain ⟨k, rfl⟩ := create_eq fuel n s0 h
  refine ⟨?_, ?_, ?_, ?_⟩
  · intro i w hi
    simp only [ThreadPool.members] at hi ⊢
    rw [List.getElem?_replicate] at hi
    split at hi
    · simp at hi; subst hi; simp [Worker.spawn, PC.holdsLock]
    · simp at hi
  · simp [ThreadPool.members]
  · intro i
    simp only [ThreadPool.members, pending]
    rw [List.getElem?_replicate]
    by_cases hi : i < k <;> simp [hi, Worker.spawn, Worker.owned]
  · simp [ThreadPool.members]

/-- With enough fuel the loop of `initThreads`, entered at `i`, appends
`n + 1 - i` threads. -/
theorem initThreadsLoop_size (n : Nat) (hn : n + 1 < 2 ^ 32) :
    ∀ (k fuel i : Nat) (v : List (Worker J)), i + k = n + 1 → k < fuel →
      initThreadsLoop n fuel i v = some (v ++ List.replicate k Worker.spawn) := by
  intro k
  induction k with
  | zero =>
    intro fuel i v hi hf
    obtain ⟨f, rfl⟩ : ∃ f, fuel = f + 1 := ⟨fuel - 1, by omega⟩
    have : ¬ i ≤ n := by omega
    simp [initThreadsLoop, this]
  | succ k ih =>
    intro fuel i v hi hf
    obtain ⟨f, rfl⟩ : ∃ f, fuel = f + 1 := ⟨fuel - 1, by omega⟩
    have h1 : i ≤ n := by omega
    have h2 : (i + 1) % 2 ^ 32 = i + 1 := Nat.mod_eq_of_lt (by omega)
    simp only [initThreadsLoop, h1, if_true, h2]
    rw [ih f (i + 1) _ (by omega) (by omega), List.replicate_succ]
    simp

/-- Running two schedules in a row. -/
theorem run_append (a b : List (Action J)) (s : ThreadPool J) :
    run (a ++ b) s = (run a s).bind (run b) := by
  induction a generalizing s with
  | nil => simp [run]
  | cons x xs ih =>
    simp only [List.cons_append, run]
    cases step s x <;> simp [ih]

/-- A transition adds to `submitted` exactly the job it hands to `addJob`,
keeps the number of threads, and keeps a false flag false. -/
theorem step_submitted (a : Action J) (s s' : ThreadPool J) (hs : step s a = some s') :
    s'.submitted = s.submitted ++ jobsOf [a] ∧ s'.vThreads.length = s.vThreads.length ∧
      (s.bAlive = false → s'.bAlive = false) := by
  cases a with
  | addJob j c =>
    simp only [step] at hs
    split at hs
    · simp at hs; subst hs; simp [addJob, notifyOne, jobsOf]
    · simp at hs
  | killFlag => simp only [step] at hs; simp at hs; subst hs; simp [killFlag, jobsOf]
  | killNotify => simp only [step] at hs; simp at hs; subst hs; simp [notifyAll, jobsOf]
  | worker i => simpa [jobsOf] using processJobs_frame i s s' hs
  | spurious i => simp only [step] at hs; simp at hs; subst hs; simp [jobsOf]

/-- The submitted jobs of a schedule, one action at a time. -/
theorem jobsOf_cons (a : Action J) (as : List (Action J)) :
    jobsOf (a :: as) = jobsOf [a] ++ jobsOf as := by
  cases a <;> simp [jobsOf]

/-- A schedule adds to `submitted` the jobs it submits, keeps the number of
threads, and keeps a false flag false. -/
theorem run_frame (acts : List (Action J)) : ∀ (s s' : ThreadPool J),
    run acts s = some s' →
    s'.submitted = s.submitted ++ jobsOf acts ∧ s'.vThreads.length = s.vThreads.length ∧
      (s.bAlive = false → s'.bAlive = false) := by
  induction acts with
  | nil => intro s s' hs; simp [run] at hs; subst hs; simp [jobsOf]
  | cons a as ih =>
    intro s s' hs
    simp only [run] at hs
    cases hst : step s a with
    | none => simp [hst] at hs
    | some t =>
      simp [hst] at hs
      obtain ⟨h1, h2, h3⟩ := step_submitted a s t hst
      obtain ⟨g1, g2, g3⟩ := ih t s' hs
      refine ⟨?_, by omega, fun h => g3 (h3 h)⟩
      rw [g1, h1, jobsOf_cons a as, List.append_assoc]

/-- In a state reached from a constructed pool the invariant holds and
`submitted` lists the jobs of the schedule. -/
theorem reachable_inv (fuel n : Nat) (acts : List (Action J)) (s0 s : ThreadPool J)
    (h0 : ThreadPool.create fuel n = some s0) (hr : run acts s0 = some s) :
    Inv s ∧ s.submitted = jobsOf acts ∧ s.vThreads.length = s0.vThreads.length := by
  refine ⟨run_inv acts s0 s (create_inv fuel n s0 h0) hr, ?_, (run_frame acts s0 s hr).2.1⟩
  obtain ⟨k, rfl⟩ := create_eq fuel n s0 h0
  simpa [ThreadPool.members] using (run_frame acts _ s hr).1

/-- Filtering by the worker number is the identity on a one-worker history. -/
theorem filter_owner_eq {α : Type} (l : List (Nat × α)) (i : Nat) (h : ∀ e ∈ l, e.1 = i) :
    l.filter (fun e => e.1 == i) = l := by
  rw [List.filter_eq_self]
  intro e he
  simp [h e he]

/-- Every executed job was popped, by the same worker. -/
theorem executed_mem_popped (s : ThreadPool J) (h : Inv s) :
    ∀ e ∈ s.executed, e ∈ s.popped := by
  intro e he
  have h1 : e ∈ s.executed.filter (fun x => x.1 == e.1) := by
    simp [List.mem_filter, he]
  have h2 : e ∈ s.popped.filter (fun x => x.1 == e.1) := by
    rw [h.logs e.1]; exact List.mem_append_left _ h1
  exact (List.mem_filter.1 h2).1

/-- Counting an entry after filtering on its own key. -/
theorem count_filter_key {α : Type} [DecidableEq α] (f : α → Nat) (l : List α) (e : α) :
    List.count e (l.filter (fun x => f x == f e)) = List.count e l :=
  List.count_filter (p := fun x : α => f x == f e) (by simp)

/-- The executed jobs are among the popped jobs, with multiplicity. -/
theorem executed_subperm_popped [DecidableEq J] (s : ThreadPool J) (h : Inv s) :
    s.executed.Subperm s.popped := by
  rw [List.subperm_ext_iff]
  intro e _
  have h1 := count_filter_key Prod.fst s.executed e
  have h2 := count_filter_key Prod.fst s.popped e
  rw [h.logs e.1, @List.count_append _ instBEqOfDecidableEq] at h2
  omega

/-- When the joins return no worker owns a job. -/
theorem pending_exited (s : ThreadPool J) (hj : joinAll s = some s) (i : Nat) :
    pending s.vThreads i = [] := by
  unfold joinAll at hj
  split at hj
  · rename_i hall
    rw [List.all_eq_true] at hall
    unfold pending
    cases hw : s.vThreads[i]? with
    | none => rfl
    | some w =>
      have hm : w ∈ s.vThreads := by
        obtain ⟨hi, rfl⟩ := List.getElem?_eq_some.1 hw
        exact List.getElem_mem hi
      have := hall w hm
      simp at this
      simp [Worker.owned, this]
  · simp at hj

/-- When the joins return, the executed jobs are the popped jobs. -/
theorem executed_perm_popped [DecidableEq J] (s : ThreadPool J) (h : Inv s)
    (hj : joinAll s = some s) : s.executed.Perm s.popped := by
  rw [List.perm_iff_count]
  intro e
  have h1 := count_filter_key Prod.fst s.executed e
  have h2 := count_filter_key Prod.fst s.popped e
  rw [h.logs e.1, pending_exited s hj, List.append_nil] at h2
  omega

/-- The counter is the number of completed executions. -/
theorem counter_eq (s : ThreadPool J) : counter s = s.executed.length := by
  unfold counter
  generalize s.executed = l
  have : ∀ (l : List (Nat × J)) (c : Nat), l.foldl (fun c _ => c + 1) c = c + l.length := by
    intro l
    induction l with
    | nil => simp
    | cons a t ih => intro c; simp [ih]; omega
  simpa using this l 0

/-- A transition only appends to `popped`. -/
theorem step_popped_grows (a : Action J) (s s' : ThreadPool J) (hs : step s a = some s') :
    s.popped <+: s'.popped := by
  cases a with
  | addJob j c =>
    simp only [step] at hs
    split at hs
    · simp at hs; subst hs; exact ⟨[], by simp [addJob, notifyOne]⟩
    · simp at hs
  | killFlag => simp only [step] at hs; simp at hs; subst hs; exact ⟨[], by simp [killFlag]⟩
  | killNotify => simp only [step] at hs; simp at hs; subst hs; exact ⟨[], by simp [notifyAll]⟩
  | worker i =>
    rcases (processJobs_popped i s s' hs).2 with h | ⟨j, h⟩
    · exact ⟨[], by simp [h]⟩
    · exact ⟨[(i, j)], h.symm⟩
  | spurious i => simp only [step] at hs; simp at hs; subst hs; exact ⟨[], by simp⟩

/-- A schedule only appends to `popped`. -/
theorem run_popped_grows (acts : List (Action J)) : ∀ (s s' : ThreadPool J),
    run acts s = some s' → s.popped <+: s'.popped := by
  induction acts with
  | nil => intro s s' hs; simp [run] at hs; subst hs; exact ⟨[], by simp⟩
  | cons a as ih =>
    intro s s' hs
    simp only [run] at hs
    cases hst : step s a with
    | none => simp [hst] at hs
    | some t =>
      simp [hst] at hs
      obtain ⟨u, hu⟩ := step_popped_grows a s t hst
      obtain ⟨v, hv⟩ := ih t s' hs
      exact ⟨u ++ v, by rw [← hv, ← hu, List.append_assoc]⟩

/-- Replacing a worker that does not own the mutex does not change `pastCheck`. -/
theorem pastCheck_set_other {v : List (Worker J)} {m : Option Nat} {i : Nat} {w : Worker J}
    (w' : Worker J) (hw : v[i]? = some w) (hm : m ≠ some i) :
    pastCheck m (v.set i w') = pastCheck m v := by
  unfold pastCheck
  cases m with
  | none => rfl
  | some k =>
    have hk : k ≠ i := fun h => hm (by rw [h])
    simp only [getElem?_set_of hw, hk, if_false]

set_option maxHeartbeats 4000000 in
/-- With the flag false a worker step does not raise `popBudget`. -/
theorem processJobs_budget (i : Nat) (s s' : ThreadPool J) (h : Core s)
    (hd : s.bAlive = false) (hs : processJobs i s = some s') :
    popBudget s' ≤ popBudget s := by
  unfold processJobs at hs
  cases hw : s.vThreads[i]? with
  | none => simp [hw] at hs
  | some w =>
    have hwi := h i w hw
    have hi : i < s.vThreads.length := by
      rcases List.getElem?_eq_some.1 hw with ⟨hi, _⟩
      exact hi
    simp only [hw] at hs
    cases hpc : w.pc <;> simp only [hpc] at hs <;> simp only [hpc, PC.holdsLock] at hwi
    all_goals (try split at hs)
    all_goals (try split at hs)
    all_goals (try (simp at hs))
    all_goals (try subst hs)
    all_goals
      first
        | (have hm : s._jobsQueueMtx ≠ some i := by simp_all
           simp only [popBudget, ThreadPool.setThread, pastCheck_set_other _ hw hm]
           simp; done)
        | simp_all [popBudget, pastCheck, ThreadPool.setThread, hi]

/-- With the flag false no transition raises `popBudget`. -/
theorem step_budget (a : Action J) (s s' : ThreadPool J) (h : Inv s)
    (hd : s.bAlive = false) (hs : step s a = some s') : popBudget s' ≤ popBudget s := by
  cases a with
  | addJob j c =>
    simp only [step] at hs
    split at hs
    · simp at hs; subst hs; simp [addJob, notifyOne, popBudget]
    · simp at hs
  | killFlag => simp only [step] at hs; simp at hs; subst hs; simp [killFlag, popBudget]
  | killNotify => simp only [step] at hs; simp at hs; subst hs; simp [notifyAll, popBudget]
  | worker i => exact processJobs_budget i s s' h.core hd hs
  | spurious i => simp only [step] at hs; simp at hs; subst hs; simp [popBudget]

/-- With the flag false no schedule raises `popBudget`. -/
theorem run_budget (acts : List (Action J)) : ∀ (s s' : ThreadPool J), Inv s →
    s.bAlive = false → run acts s = some s' → popBudget s' ≤ popBudget s := by
  induction acts with
  | nil => intro s s' _ _ hs; simp [run] at hs; subst hs; exact Nat.le_refl _
  | cons a as ih =>
    intro s s' h hd hs
    simp only [run] at hs
    cases hst : step s a with
    | none => simp [hst] at hs
    | some t =>
      simp [hst] at hs
      have h1 := step_budget a s t h hd hst
      have h2 := ih t s' (step_inv a s t h hst) ((step_submitted a s t hst).2.2 hd) hs
      omega

/-- When the loop of `initThreads` returns, it has appended `n + 1 - i` threads. -/
theorem initThreadsLoop_length (n : Nat) (hn : n + 1 < 2 ^ 32) :
    ∀ (fuel i : Nat) (v v' : List (Worker J)), i ≤ n + 1 →
      initThreadsLoop n fuel i v = some v' → v'.length = v.length + (n + 1 - i) := by
  intro fuel
  induction fuel with
  | zero => intro i v v' _ h; simp [initThreadsLoop] at h
  | succ f ih =>
    intro i v v' hi h
    simp only [initThreadsLoop] at h
    split at h
    · rename_i hle
      have h2 : (i + 1) % 2 ^ 32 = i + 1 := Nat.mod_eq_of_lt (by omega)
      rw [h2] at h
      have := ih (i + 1) _ v' (by omega) h
      simp at this
      omega
    · simp at h; subst h; omega

/-- For `iNumThreads = 2 ^ 32 - 1` and above the loop condition never fails. -/
theorem initThreadsLoop_diverges (n : Nat) (hn : 2 ^ 32 ≤ n + 1) :
    ∀ (fuel i : Nat) (v : List (Worker J)), i < 2 ^ 32 → initThreadsLoop n fuel i v = none := by
  intro fuel
  induction fuel with
  | zero => intro i v _; simp [initThreadsLoop]
  | succ f ih =>
    intro i v hi
    have hle : i ≤ n := by omega
    simp only [initThreadsLoop, hle, if_true]
    exact ih _ _ (Nat.mod_lt _ (by norm_num))

/-- Whenever the constructor returns, `vThreads` has `n + 1` threads. -/
theorem create_length (fuel n : Nat) (s0 : ThreadPool J)
    (h : ThreadPool.create fuel n = some s0) : s0.vThreads.length = n + 1 := by
  simp only [ThreadPool.create, initThreads, Option.map_eq_some'] at h
  obtain ⟨v, hv, rfl⟩ := h
  by_cases hn : n + 1 < 2 ^ 32
  · simpa [ThreadPool.members] using initThreadsLoop_length n hn fuel 0 _ v (by omega) hv
  · rw [initThreadsLoop_diverges n (by omega) fuel 0 _ (by norm_num)] at hv
    simp at hv

/-! ## The claims -/

/-- C1 (the code differs): for every requested count `n` below `2 ^ 32 - 1` the
explicit-count constructor leaves `vThreads` with `n + 1` threads, one more
than requested, because the loop of `initThreads` runs for `i = 0, ..., n`
(the loop of `tThreadPool<T>::initThreads` is the same text). -/
theorem create_spawns_one_more {J : Type} (n fuel : Nat) (hn : n + 1 < 2 ^ 32)
    (hf : n + 2 ≤ fuel) :
    (ThreadPool.create fuel n : Option (ThreadPool J)).map (fun s => s.vThreads.length) =
      some (n + 1) := by
  have h := initThreadsLoop_size (J := J) n hn (n + 1) fuel 0 [] (by omega) (by omega)
  simp [ThreadPool.create, initThreads, ThreadPool.members, h]

/-- Witness of `create_spawns_one_more`: `ThreadPool(4)` owns 5 threads. -/
theorem create_spawns_one_more_witness :
    (ThreadPool.create 6 4 : Option (ThreadPool Nat)).map (fun s => s.vThreads.length) =
      some 5 :=
  create_spawns_one_more 4 6 (by norm_num) (by norm_num)

/-- C2: in a pool with exactly one worker, in every reachable state the jobs
popped so far followed by the queue are the submitted jobs in order, so the
popped jobs are an initial segment of the submissions, and the jobs executed
so far are an initial segment of the popped ones. -/
theorem single_worker_fifo {J : Type} (fuel n : Nat) (acts : List (Action J))
    (s0 s : ThreadPool J) (h0 : ThreadPool.create fuel n = some s0)
    (h1 : s0.vThreads.length = 1) (hr : run acts s0 = some s) :
    s.popped.map Prod.snd ++ s.qJobs = jobsOf acts ∧
    s.popped.map Prod.snd <+: jobsOf acts ∧
    s.executed.map Prod.snd <+: s.popped.map Prod.snd ∧
    s.executed.map Prod.snd <+: jobsOf acts := by
  obtain ⟨hinv, hsub, hlen⟩ := reachable_inv fuel n acts s0 s h0 hr
  have hfifo : s.popped.map Prod.snd ++ s.qJobs = jobsOf acts := by rw [← hsub]; exact hinv.fifo
  suffices h : s.executed.map Prod.snd <+: s.popped.map Prod.snd by
    obtain ⟨u, hu⟩ := h
    exact ⟨hfifo, ⟨s.qJobs, hfifo⟩, ⟨u, hu⟩,
      ⟨u ++ s.qJobs, by rw [← List.append_assoc, hu, hfifo]⟩⟩
  have hown : ∀ e ∈ s.popped, e.1 = 0 := by
    intro e he
    have := hinv.owner e he
    omega
  have hexe : ∀ e ∈ s.executed, e.1 = 0 := fun e he => hown e (executed_mem_popped s hinv e he)
  have hl := hinv.logs 0
  rw [filter_owner_eq _ 0 hown, filter_owner_eq _ 0 hexe] at hl
  rw [hl, List.map_append]
  exact ⟨_, rfl⟩

/-- Witness of `single_worker_fifo`: `ThreadPool(0)` with jobs 10, 20, 30. -/
theorem single_worker_fifo_witness :
    run fifoSchedule (poolOf [Worker.spawn]) = some fifoEnd ∧
    fifoEnd.popped.map Prod.snd ++ fifoEnd.qJobs = jobsOf fifoSchedule ∧
    fifoEnd.popped.map Prod.snd <+: jobsOf fifoSchedule ∧
    fifoEnd.executed.map Prod.snd <+: fifoEnd.popped.map Prod.snd ∧
    fifoEnd.executed.map Prod.snd <+: jobsOf fifoSchedule :=
  ⟨by decide, single_worker_fifo 2 0 fifoSchedule (poolOf [Worker.spawn]) fifoEnd
    (by decide) (by decide) (by decide)⟩

/-- C3: for any number of workers and any schedule, in every reachable state
the popped jobs followed by the queued jobs are exactly the submitted jobs, and
the executed jobs are among the popped ones with multiplicity; so when the
submitted jobs are distinct, no job is popped twice, no job is popped by two
workers, no job is executed twice, no queued job was ever popped or executed,
and a job once popped is in the queue of no later state. -/
theorem no_duplication {J : Type} [DecidableEq J] (fuel n : Nat) (acts : List (Action J))
    (s0 s : ThreadPool J) (h0 : ThreadPool.create fuel n = some s0)
    (hr : run acts s0 = some s) :
    s.popped.map Prod.snd ++ s.qJobs = jobsOf acts ∧
    s.executed.Subperm s.popped ∧
    ((jobsOf acts).Nodup →
      (s.popped.map Prod.snd).Nodup ∧
      (∀ i k j, (i, j) ∈ s.popped → (k, j) ∈ s.popped → i = k) ∧
      (s.executed.map Prod.snd).Nodup ∧
      ∀ j ∈ s.qJobs, j ∉ s.popped.map Prod.snd ∧ j ∉ s.executed.map Prod.snd) ∧
    (∀ (more : List (Action J)) (t : ThreadPool J), run more s = some t →
      (jobsOf (acts ++ more)).Nodup → ∀ j ∈ s.popped.map Prod.snd, j ∉ t.qJobs) := by
  obtain ⟨hinv, hsub, -⟩ := reachable_inv fuel n acts s0 s h0 hr
  have hfifo : s.popped.map Prod.snd ++ s.qJobs = jobsOf acts := by rw [← hsub]; exact hinv.fifo
  have hsp := executed_subperm_popped s hinv
  refine ⟨hfifo, hsp, ?_, ?_⟩
  rotate_left
  · intro more t hm hnd j hj hq
    have hrt : run (acts ++ more) s0 = some t := by rw [run_append, hr]; exact hm
    obtain ⟨hinvt, hsubt, -⟩ := reachable_inv fuel n (acts ++ more) s0 t h0 hrt
    have hft := hinvt.fifo
    rw [hsubt] at hft
    rw [← hft, List.nodup_append] at hnd
    obtain ⟨u, hu⟩ := run_popped_grows more s t hm
    have hjt : j ∈ t.popped.map Prod.snd := by
      rw [← hu, List.map_append]
      exact List.mem_append_left _ hj
    exact hnd.2.2 hjt hq
  intro hnd
  rw [← hfifo, List.nodup_append] at hnd
  obtain ⟨hp, -, hdis⟩ := hnd
  have hmem : ∀ j, j ∈ s.executed.map Prod.snd → j ∈ s.popped.map Prod.snd := by
    intro j hj
    obtain ⟨e, he, rfl⟩ := List.mem_map.1 hj
    exact List.mem_map.2 ⟨e, executed_mem_popped s hinv e he, rfl⟩
  have hex : (s.executed.map Prod.snd).Nodup := by
    obtain ⟨l, hl, hsub⟩ := hsp
    exact ((hl.map Prod.snd).nodup_iff).1 ((hsub.map Prod.snd).nodup hp)
  refine ⟨hp, ?_, hex, ?_⟩
  · intro i k j hi hk
    have := List.inj_on_of_nodup_map hp hi hk rfl
    exact congrArg Prod.fst this
  · intro j hj
    have hnp : j ∉ s.popped.map Prod.snd := fun h => hdis h hj
    exact ⟨hnp, fun h => hnp (hmem j h)⟩

/-- Witness of `no_duplication`: `ThreadPool(1)`, whose two workers finish
their jobs out of order. -/
theorem no_duplication_witness :
    run twoWorkerSchedule (poolOf [Worker.spawn, Worker.spawn]) = some twoWorkerEnd ∧
    (jobsOf twoWorkerSchedule).Nodup ∧
    (twoWorkerEnd.executed.map Prod.snd).Nodup ∧
    twoWorkerEnd.executed.Subperm twoWorkerEnd.popped :=
  have h := no_duplication 3 1 twoWorkerSchedule (poolOf [Worker.spawn, Worker.spawn])
    twoWorkerEnd (by decide) (by decide)
  ⟨by decide, by decide, (h.2.2.1 (by decide)).2.2.1, h.2.1⟩

set_option maxRecDepth 100000 in
/-- C4 (counterexample): `ThreadPool(4)`, 100 jobs submitted, then disposal;
the five threads see the flag false at line 63 and return, the destructor's
joins return, and the counter is 0 with all 100 jobs still queued. -/
theorem disposal_runs_everything_counterexample :
    (((ThreadPool.create 6 4 : Option (ThreadPool Nat)).bind
        (run earlyDisposalSchedule)).bind joinAll).map
        (fun s => (s.bAlive, s.submitted.length, s.qJobs.length, counter s)) =
      some (false, 100, 100, 0) := by
  decide

/-- C4 (amended): when the destructor's joins return, the executed jobs
together with the jobs still in the queue are the submitted jobs, each once;
the counter plus the number of jobs left in the queue is the number of jobs
submitted, so the counter is at most that number. -/
theorem disposal_counter {J : Type} [DecidableEq J] (fuel n : Nat) (acts : List (Action J))
    (s0 s : ThreadPool J) (h0 : ThreadPool.create fuel n = some s0)
    (hr : run acts s0 = some s) (hj : joinAll s = some s) :
    counter s + s.qJobs.length = (jobsOf acts).length ∧
    counter s ≤ (jobsOf acts).length ∧
    (s.executed.map Prod.snd ++ s.qJobs).Perm (jobsOf acts) := by
  obtain ⟨hinv, hsub, -⟩ := reachable_inv fuel n acts s0 s h0 hr
  have hfifo : s.popped.map Prod.snd ++ s.qJobs = jobsOf acts := by rw [← hsub]; exact hinv.fifo
  have hperm := executed_perm_popped s hinv hj
  have h2 : (s.executed.map Prod.snd ++ s.qJobs).Perm (jobsOf acts) := by
    rw [← hfifo]
    exact (hperm.map Prod.snd).append_right _
  have h1 : counter s + s.qJobs.length = (jobsOf acts).length := by
    rw [counter_eq, ← h2.length_eq]
    simp
  exact ⟨h1, by omega, h2⟩

/-- Witness of `disposal_counter`: `ThreadPool(1)`, two jobs run to their end
before disposal, and the counter is 2. -/
theorem disposal_counter_witness :
    run drainSchedule (poolOf [Worker.spawn, Worker.spawn]) = some drainEnd ∧
    joinAll drainEnd = some drainEnd ∧
    counter drainEnd + drainEnd.qJobs.length = (jobsOf drainSchedule).length ∧
    counter drainEnd ≤ (jobsOf drainSchedule).length ∧
    (drainEnd.executed.map Prod.snd ++ drainEnd.qJobs).Perm (jobsOf drainSchedule) :=
  ⟨by decide, by decide, disposal_counter 3 1 drainSchedule (poolOf [Worker.spawn, Worker.spawn])
    drainEnd (by decide) (by decide) (by decide)⟩

/-- C5 (the code differs): `ThreadPool(0)` with job 7 queued.  The worker passes
the check of line 71 while the flag is true; `kill()` then sets the flag to
false with job 7 still in the queue; the worker goes on, pops job 7 and runs
it. -/
theorem job_started_after_kill :
    ((ThreadPool.create 2 0 : Option (ThreadPool Nat)).bind (run killBeforePopSchedule)).map
        (fun s => (s.bAlive, s.qJobs, s.popped, running s)) = some (false, [7], [], []) ∧
    ((ThreadPool.create 2 0 : Option (ThreadPool Nat)).bind (run lateKillSchedule)).map
        (fun s => (s.bAlive, s.qJobs, s.popped, running s)) =
      some (false, [], [(0, 7)], [7]) :=
  ⟨by decide, by decide⟩

/-- C6: `addJob` appends the job at the end of the queue and leaves the flag
and the threads as they were, whatever the flag is; it is enabled whenever the
mutex is free, also after `kill()`. -/
theorem addJob_appends {J : Type} (s : ThreadPool J) (j : J) (wake : Nat) :
    (addJob j wake s).qJobs = s.qJobs ++ [j] ∧
    (addJob j wake s).bAlive = s.bAlive ∧
    (addJob j wake s).vThreads = s.vThreads ∧
    (addJob j wake (kill s)).qJobs = s.qJobs ++ [j] ∧
    (addJob j wake (kill s)).bAlive = false ∧
    (s._jobsQueueMtx = none → step s (.addJob j wake) = some (addJob j wake s)) ∧
    (s._jobsQueueMtx = none → step (kill s) (.addJob j wake) = some (addJob j wake (kill s))) := by
  refine ⟨rfl, rfl, rfl, rfl, rfl, ?_, ?_⟩
  · intro h; simp [step, h]
  · intro h; simp [step, kill, notifyAll, killFlag, h]

/-- C7 (the code differs): `ThreadPool(2)` owns three threads, so with three
submitted jobs that do not return, all three are executing at once and none
waits in the queue. -/
theorem three_jobs_run_at_once :
    ((ThreadPool.create 4 2 : Option (ThreadPool Nat)).bind (run threeBlockedSchedule)).map
        (fun s => (s.vThreads.length, running s, s.qJobs, s.executed)) =
      some (3, [0, 1, 2], [], []) := by
  decide

/-- C8: `kill` applied twice gives the state `kill` gives once: flag false,
queue and threads untouched; and no schedule sets the flag back to true. -/
theorem kill_idempotent {J : Type} (s : ThreadPool J) :
    kill (kill s) = kill s ∧
    (kill s).bAlive = false ∧ (kill s).qJobs = s.qJobs ∧ (kill s).vThreads = s.vThreads ∧
    ∀ (acts : List (Action J)) (t : ThreadPool J), run acts (kill s) = some t →
      t.bAlive = false :=
  ⟨rfl, rfl, rfl, rfl, fun acts t h => (run_frame acts (kill s) t h).2.2 rfl⟩

/-- C9 (the code differs): `ThreadPool(0)`.  The worker owns the mutex and has
found the wait predicate false; `kill()` writes the flag although the worker
owns the mutex, and notifies nobody; the worker then blocks on `cvJobs`.  In
the state reached the flag is false, the worker cannot move, and the join of
the destructor does not return. -/
theorem kill_without_lock_loses_wakeup :
    ((ThreadPool.create 2 0 : Option (ThreadPool Nat)).bind (run (steps 0 3))).map
        (fun s => (s.bAlive, s._jobsQueueMtx, s.vThreads.map (fun w => w.pc))) =
      some (true, some 0, [PC.waitBlock]) ∧
    ((ThreadPool.create 2 0 : Option (ThreadPool Nat)).bind (run (steps 0 3 ++ [Action.killFlag]))).map
        (fun s => (s.bAlive, s._jobsQueueMtx, s.vThreads.map (fun w => w.pc))) =
      some (false, some 0, [PC.waitBlock]) ∧
    ((ThreadPool.create 2 0 : Option (ThreadPool Nat)).bind (run lostWakeupSchedule)).map
        (fun s => (s.bAlive, s.cvJobs, s.vThreads.map (fun w => w.pc))) =
      some (false, [0], [PC.blocked]) ∧
    ((ThreadPool.create 2 0 : Option (ThreadPool Nat)).bind (run lostWakeupSchedule)).bind (processJobs 0) = none ∧
    ((ThreadPool.create 2 0 : Option (ThreadPool Nat)).bind (run lostWakeupSchedule)).bind joinAll = none := by
  decide

/-- C10: in every reachable state no worker has faulted, and a worker that is
about to execute `qJobs.front()` or `qJobs.pop()` finds the queue non-empty. -/
theorem never_pops_empty {J : Type} (fuel n : Nat) (acts : List (Action J))
    (s0 s : ThreadPool J) (h0 : ThreadPool.create fuel n = some s0)
    (hr : run acts s0 = some s) :
    ∀ (i : Nat) (w : Worker J), s.vThreads[i]? = some w →
      w.pc ≠ .fault ∧ (w.pc = .front ∨ w.pc = .pop → ∃ j q, s.qJobs = j :: q) := by
  obtain ⟨hinv, -, -⟩ := reachable_inv fuel n acts s0 s h0 hr
  intro i w hw
  obtain ⟨-, -, hf, hp, -, hne⟩ := hinv.core i w hw
  refine ⟨hne, ?_⟩
  intro h
  have hq : s.qJobs ≠ [] := by
    rcases h with h | h
    · exact hf h
    · exact (hp h).1
  cases hs : s.qJobs with
  | nil => exact absurd hs hq
  | cons j q => exact ⟨j, q, rfl⟩

/-- Witness of `never_pops_empty`: `ThreadPool(1)`, worker 0 woken by a
submission and standing at line 73. -/
theorem never_pops_empty_witness :
    run wakeSchedule (poolOf [Worker.spawn, Worker.spawn]) = some wakeEnd ∧
    wakeEnd.vThreads[0]? = some { pc := .front, job := none } ∧
    ∃ j q, wakeEnd.qJobs = j :: q :=
  ⟨by decide, by decide,
    ((never_pops_empty 3 1 wakeSchedule (poolOf [Worker.spawn, Worker.spawn]) wakeEnd
      (by decide) (by decide)) 0 { pc := .front, job := none } (by decide)).2 (Or.inl rfl)⟩

/-! ## Further properties -/

/-- Once the flag is false, at most one more job is ever popped, and it is the
job that was at the front of the queue; every other queued job and every job
submitted later stays in the queue, in order. -/
theorem one_pop_after_kill {J : Type} (fuel n : Nat) (acts more : List (Action J))
    (s0 s t : ThreadPool J) (h0 : ThreadPool.create fuel n = some s0)
    (hr : run acts s0 = some s) (hd : s.bAlive = false) (hm : run more s = some t) :
    (t.popped = s.popped ∧ t.qJobs = s.qJobs ++ jobsOf more) ∨
    ∃ i j q, s.qJobs = j :: q ∧ t.popped = s.popped ++ [(i, j)] ∧
      t.qJobs = q ++ jobsOf more := by
  obtain ⟨hinv, -, -⟩ := reachable_inv fuel n acts s0 s h0 hr
  have hinvt := run_inv more s t hinv hm
  have hsub := (run_frame more s t hm).1
  have hb := run_budget more s t hinv hd hm
  obtain ⟨u, hu⟩ := run_popped_grows more s t hm
  have hft := hinvt.fifo
  rw [hsub, ← hinv.fifo, ← hu, List.map_append, List.append_assoc, List.append_assoc,
    List.append_cancel_left_eq] at hft
  simp only [popBudget] at hb
  rw [← hu, List.length_append] at hb
  cases u with
  | nil =>
    left
    simp at hu hft
    exact ⟨hu.symm, hft⟩
  | cons e r =>
    right
    have hr0 : r = [] := by
      cases r with
      | nil => rfl
      | cons _ _ => simp at hb; split at hb <;> split at hb <;> omega
    subst hr0
    have hp : pastCheck s._jobsQueueMtx s.vThreads = true := by
      by_contra hne
      simp [hne] at hb
      split at hb <;> omega
    unfold pastCheck at hp
    cases hmt : s._jobsQueueMtx with
    | none => simp [hmt] at hp
    | some k =>
      simp only [hmt] at hp
      cases hw : s.vThreads[k]? with
      | none => simp [hw] at hp
      | some w =>
        simp only [hw, decide_eq_true_eq] at hp
        obtain ⟨-, -, hf, hpp, -, -⟩ := hinv.core k w hw
        have hq : s.qJobs ≠ [] := by
          rcases hp with hp | hp
          · exact hf hp
          · exact (hpp hp).1
        cases hqs : s.qJobs with
        | nil => exact absurd hqs hq
        | cons j q =>
          rw [hqs] at hft
          simp at hft
          refine ⟨e.1, j, q, rfl, ?_, hft.2⟩
          rw [← hu, ← hft.1]

/-- Witness of `one_pop_after_kill`: `ThreadPool(0)`, jobs 7 and 8 queued when
`kill()` runs; job 7 is still popped, jobs 8 and 9 stay queued. -/
theorem one_pop_after_kill_witness :
    run lateKillLead (poolOf [Worker.spawn]) = some lateKillStart ∧
    run lateKillRest lateKillStart = some lateKillEnd ∧
    ((lateKillEnd.popped = lateKillStart.popped ∧
        lateKillEnd.qJobs = lateKillStart.qJobs ++ jobsOf lateKillRest) ∨
      ∃ i j q, lateKillStart.qJobs = j :: q ∧
        lateKillEnd.popped = lateKillStart.popped ++ [(i, j)] ∧
        lateKillEnd.qJobs = q ++ jobsOf lateKillRest) :=
  ⟨by decide, by decide,
    one_pop_after_kill 2 0 lateKillLead lateKillRest (poolOf [Worker.spawn]) lateKillStart
      lateKillEnd (by decide) (by decide) (by decide) (by decide)⟩

/-- In every reachable state at most one worker stands at a control point
between taking and releasing the lock. -/
theorem mutual_exclusion {J : Type} (fuel n : Nat) (acts : List (Action J))
    (s0 s : ThreadPool J) (h0 : ThreadPool.create fuel n = some s0)
    (hr : run acts s0 = some s) :
    ∀ (i k : Nat) (wi wk : Worker J), s.vThreads[i]? = some wi → s.vThreads[k]? = some wk →
      wi.pc.holdsLock = true → wk.pc.holdsLock = true → i = k := by
  obtain ⟨hinv, -, -⟩ := reachable_inv fuel n acts s0 s h0 hr
  intro i k wi wk hi hk li lk
  have h1 := ((hinv.core i wi hi).1).1 li
  have h2 := ((hinv.core k wk hk).1).1 lk
  rw [h1] at h2
  exact Option.some.inj h2

/-- Witness of `mutual_exclusion`: in `wakeEnd` worker 0 holds the lock. -/
theorem mutual_exclusion_witness :
    run wakeSchedule (poolOf [Worker.spawn, Worker.spawn]) = some wakeEnd ∧
    wakeEnd.vThreads[0]? = some { pc := .front, job := none } ∧ (0 : Nat) = 0 :=
  ⟨by decide, by decide,
    mutual_exclusion 3 1 wakeSchedule (poolOf [Worker.spawn, Worker.spawn]) wakeEnd
      (by decide) (by decide) 0 0 { pc := .front, job := none } { pc := .front, job := none }
      (by decide) (by decide) rfl rfl⟩

/-- A pool built by `ThreadPool(n)` keeps `n + 1` threads in every reachable
state, and at most `n + 1` jobs are executing at any time. -/
theorem running_bound {J : Type} (fuel n : Nat) (acts : List (Action J))
    (s0 s : ThreadPool J) (h0 : ThreadPool.create fuel n = some s0)
    (hr : run acts s0 = some s) :
    s.vThreads.length = n + 1 ∧ (running s).length ≤ n + 1 := by
  obtain ⟨-, -, hlen⟩ := reachable_inv fuel n acts s0 s h0 hr
  have hl : s.vThreads.length = n + 1 := by rw [hlen]; exact create_length fuel n s0 h0
  refine ⟨hl, ?_⟩
  unfold running
  calc _ ≤ (s.vThreads.filter (fun w => decide (w.pc = .run))).length :=
        List.length_filterMap_le _ _
    _ ≤ s.vThreads.length := List.length_filter_le _ _
    _ = n + 1 := hl

/-- Witness of `running_bound`: `ThreadPool(1)` after `twoWorkerSchedule`. -/
theorem running_bound_witness :
    twoWorkerEnd.vThreads.length = 1 + 1 ∧ (running twoWorkerEnd).length ≤ 1 + 1 :=
  running_bound 3 1 twoWorkerSchedule (poolOf [Worker.spawn, Worker.spawn]) twoWorkerEnd
    (by decide) (by decide)

end CppThreadPool
